import Mathlib

/-!
Shallow embedding of the corrosiones NES CPU core (Rust) in Lean 4.

Conventions of the embedding:
* `u8` and `u16` machine integers are modelled as `Nat` with explicit `% 256`
  and `% 0x10000` at the operations where the Rust code wraps
  (`wrapping_add`, `wrapping_sub`, and plain `+`/`-` on machine integers,
  which wrap in release builds).
* `Vec<u8>` is modelled as `List Nat`; the entries hold byte values.
* A Rust `panic!` (out-of-bounds indexing, unsupported addressing mode,
  write to a read-only region) and a returned `Err` are both modelled as
  `none`; fallible operations return `Option`.
* Rust methods that mutate `&mut self` become functions returning the new
  state; opcode handlers return the new CPU paired with the cycle count.
-/

namespace Corrosiones

/-- Memory region sizes, from src/cpu/memory.rs. -/
def RAM_SIZE : Nat := 0x0800

/-- Size of the combined PPU/APU register region (src/cpu/memory.rs). -/
def IO_SIZE : Nat := 0x0028

/-- Size of the battery-backed SRAM region (src/cpu/memory.rs). -/
def SRAM_SIZE : Nat := 0x2000

/-- Size of the PRG-ROM region (src/cpu/memory.rs). -/
def ROM_SIZE : Nat := 0x8000

/-- The CPU flag register, from src/cpu/flags.rs.  Note the source has no
decimal flag at all; the six fields below are exactly the struct fields. -/
structure Flags where
  carry : Bool
  zero : Bool
  interrupt_disable : Bool
  break_command : Bool
  overflow : Bool
  negative : Bool
deriving DecidableEq

/-- `Flags::default()` / `Flags::new()`: every flag cleared. -/
def Flags.new : Flags :=
  { carry := false, zero := false, interrupt_disable := false,
    break_command := false, overflow := false, negative := false }

/-- `Flags::set_from_byte`: restore C, Z, I, V, N from the given bit
positions of the byte; `break_command` is left untouched and bits 3, 4, 5
are ignored. -/
def Flags.set_from_byte (f : Flags) (byte : Nat) : Flags :=
  { f with
    carry := byte &&& 0b00000001 != 0,
    zero := byte &&& 0b00000010 != 0,
    interrupt_disable := byte &&& 0b00000100 != 0,
    overflow := byte &&& 0b01000000 != 0,
    negative := byte &&& 0b10000000 != 0 }

/-- `Flags::as_byte`: pack C, Z, I, V, N into bits 0, 1, 2, 6, 7.  The
source sets no other bit (in particular neither bit 5 nor bit 4). -/
def Flags.as_byte (f : Flags) : Nat :=
  let carry_byte := if f.carry then 1 else 0
  let zero_byte := if f.zero then 1 <<< 1 else 0
  let id_byte := if f.interrupt_disable then 1 <<< 2 else 0
  let overflow_byte := if f.overflow then 1 <<< 6 else 0
  let negative_byte := if f.negative then 1 <<< 7 else 0
  carry_byte ||| zero_byte ||| id_byte ||| overflow_byte ||| negative_byte

/-- `Flags::set_zero_from_byte`. -/
def Flags.set_zero_from_byte (f : Flags) (byte : Nat) : Flags :=
  { f with zero := byte == 0 }

/-- `Flags::set_negative_from_byte`. -/
def Flags.set_negative_from_byte (f : Flags) (byte : Nat) : Flags :=
  { f with negative := (byte >>> 7) &&& 1 == 1 }

/-- The memory map, from src/cpu/memory.rs. -/
structure Memory where
  ram : List Nat
  io : List Nat
  expansion_rom : List Nat
  sram : List Nat
  rom : List Nat
deriving DecidableEq

/-- `Memory::default()` / `Memory::new()`: only the I/O region is
allocated; RAM, expansion ROM, SRAM and ROM start as empty vectors. -/
def Memory.new : Memory :=
  { ram := [], io := List.replicate IO_SIZE 0x00, expansion_rom := [],
    sram := [], rom := [] }

/-- `Vec::resize(n, x)`: truncate to `n` elements or extend with `x`. -/
def listResize (v : List Nat) (n : Nat) (x : Nat) : List Nat :=
  v.take n ++ List.replicate (n - v.length) x

/-- Rust slice `&l[a..b]`: `none` models the out-of-range panic. -/
def listSlice (l : List Nat) (a b : Nat) : Option (List Nat) :=
  if a ≤ b ∧ b ≤ l.length then some ((l.drop a).take (b - a)) else none

/-- `Memory::load_ram`: reject RAM bigger than `RAM_SIZE`, else store it
extended with zeros to `RAM_SIZE`. -/
def Memory.load_ram (m : Memory) (ram : List Nat) : Option Memory :=
  if ram.length > RAM_SIZE then none
  else some { m with ram := listResize ram RAM_SIZE 0x00 }

/-- `Memory::load_sram`: reject SRAM bigger than `SRAM_SIZE`, else store it
extended with zeros to `SRAM_SIZE`. -/
def Memory.load_sram (m : Memory) (sram : List Nat) : Option Memory :=
  if sram.length > SRAM_SIZE then none
  else some { m with sram := listResize sram SRAM_SIZE 0x00 }

/-- `Memory::load_rom`: the ROM must be exactly `ROM_SIZE` bytes. -/
def Memory.load_rom (m : Memory) (rom : List Nat) : Option Memory :=
  if rom.length ≠ ROM_SIZE then none
  else some { m with rom := listResize rom ROM_SIZE 0x00 }

/-- `Memory::read`: route the address by range, mirroring RAM mod `0x0800`
and the PPU window mod 8.  `none` models the out-of-bounds indexing panic
(the address itself is a `u16`, so addresses above `0xFFFF` cannot occur in
the source; they also answer `none` here). -/
def Memory.read (m : Memory) (addr : Nat) : Option Nat :=
  if addr ≤ 0x1FFF then m.ram.get? (addr % 0x0800)
  else if addr ≤ 0x3FFF then m.io.get? ((addr - 0x2000) % 0x0008)
  else if addr ≤ 0x401F then m.io.get? (addr - 0x4000 + 0x0008)
  else if addr ≤ 0x5FFF then m.expansion_rom.get? (addr - 0x4020)
  else if addr ≤ 0x7FFF then m.sram.get? (addr - 0x6000)
  else if addr ≤ 0xFFFF then m.rom.get? (addr - 0x8000)
  else none

/-- `Memory::write`: same routing as `read`, except that the match has no
arm for `0x4020..=0x5FFF` and none for `0x8000..=0xFFFF`, so writes there
panic (`none`).  An out-of-bounds index into a region also panics. -/
def Memory.write (m : Memory) (addr byte : Nat) : Option Memory :=
  if addr ≤ 0x1FFF then
    if addr % 0x0800 < m.ram.length then
      some { m with ram := m.ram.set (addr % 0x0800) byte }
    else none
  else if addr ≤ 0x3FFF then
    if (addr - 0x2000) % 0x0008 < m.io.length then
      some { m with io := m.io.set ((addr - 0x2000) % 0x0008) byte }
    else none
  else if addr ≤ 0x401F then
    if addr - 0x4000 + 0x0008 < m.io.length then
      some { m with io := m.io.set (addr - 0x4000 + 0x0008) byte }
    else none
  else if addr ≤ 0x5FFF then none
  else if addr ≤ 0x7FFF then
    if addr - 0x6000 < m.sram.length then
      some { m with sram := m.sram.set (addr - 0x6000) byte }
    else none
  else none

/-- The addressing modes, from src/cpu/addressing.rs (plus `Accumulator`,
which the dispatcher and `read_byte`/`write_byte` in src/cpu/mod.rs match
on). -/
inductive Addressing where
  | Absolute
  | AbsoluteX
  | AbsoluteY
  | Accumulator
  | Immediate
  | Indirect
  | IndirectX
  | IndirectY
  | Relative
  | ZeroPage
  | ZeroPageX
  | ZeroPageY
deriving DecidableEq

/-- The CPU state, from src/cpu/mod.rs. -/
structure CPU where
  memory : Memory
  flags : Flags
  pc : Nat
  sp : Nat
  a : Nat
  x : Nat
  y : Nat
deriving DecidableEq

/-- `CPU::default()` / `CPU::new()`. -/
def CPU.new : CPU :=
  { memory := Memory.new, flags := Flags.new, pc := 0, sp := 0xFD,
    a := 0, x := 0, y := 0 }

/-- `CPU::read_next_byte`: read at PC, optionally advancing PC. -/
def CPU.read_next_byte (cpu : CPU) (progress_pc : Bool) :
    Option (Nat × CPU) := do
  let byte ← cpu.memory.read cpu.pc
  let cpu1 := if progress_pc then { cpu with pc := (cpu.pc + 1) % 0x10000 }
              else cpu
  pure (byte, cpu1)

/-- `CPU::read_next_double`: little-endian 16-bit read at PC, optionally
advancing PC by two. -/
def CPU.read_next_double (cpu : CPU) (progress_pc : Bool) :
    Option (Nat × CPU) := do
  let lsb ← cpu.memory.read cpu.pc
  let msb ← cpu.memory.read ((cpu.pc + 1) % 0x10000)
  let cpu1 := if progress_pc then { cpu with pc := (cpu.pc + 2) % 0x10000 }
              else cpu
  pure ((msb <<< 8) ||| lsb, cpu1)

/-- `CPU::raw_read_byte`. -/
def CPU.raw_read_byte (cpu : CPU) (address : Nat) : Option Nat :=
  cpu.memory.read address

/-- `CPU::raw_write_byte`. -/
def CPU.raw_write_byte (cpu : CPU) (address byte : Nat) : Option CPU :=
  (cpu.memory.write address byte).map (fun m => { cpu with memory := m })

/-- `CPU::read_double`: little-endian 16-bit read at an address. -/
def CPU.read_double (cpu : CPU) (address : Nat) : Option Nat := do
  let lsb ← cpu.memory.read address
  let msb ← cpu.memory.read ((address + 1) % 0x10000)
  pure ((msb <<< 8) ||| lsb)

/-- `CPU::offset_pc`: add the operand byte as a signed two's-complement
offset to PC (the declared parameter type in the source is `u8`). -/
def CPU.offset_pc (cpu : CPU) (offset : Nat) : CPU :=
  if offset &&& 0x80 == 0 then
    { cpu with pc := (cpu.pc + offset) % 0x10000 }
  else
    { cpu with pc := (cpu.pc + 0x10000 - ((256 - offset % 256) % 256)) % 0x10000 }

/-- `CPU::set_pc`. -/
def CPU.set_pc (cpu : CPU) (address : Nat) : CPU :=
  { cpu with pc := address }

/-- `CPU::push_stack`: write at `0x0100 + SP`, then decrement SP with
wrap-around. -/
def CPU.push_stack (cpu : CPU) (byte : Nat) : Option CPU := do
  let m ← cpu.memory.write (cpu.sp + 0x0100) byte
  pure { cpu with memory := m, sp := (cpu.sp + 255) % 256 }

/-- `CPU::pop_stack`: increment SP with wrap-around, then read at
`0x0100 + SP`. -/
def CPU.pop_stack (cpu : CPU) : Option (Nat × CPU) := do
  let sp1 := (cpu.sp + 1) % 256
  let byte ← cpu.memory.read (sp1 + 0x0100)
  pure (byte, { cpu with sp := sp1 })

/-- `CPU::read_byte`: resolve the addressing mode and read the operand.
The unsupported modes (`Indirect`, `Relative`) panic in the source. -/
def CPU.read_byte (cpu : CPU) (addressing : Addressing) (progress_pc : Bool) :
    Option (Nat × CPU) :=
  match addressing with
  | .Immediate => cpu.read_next_byte progress_pc
  | .Accumulator => some (cpu.a, cpu)
  | .Absolute => do
      let (address, cpu1) ← cpu.read_next_double progress_pc
      let v ← cpu1.memory.read address
      pure (v, cpu1)
  | .AbsoluteX => do
      let (base, cpu1) ← cpu.read_next_double progress_pc
      let v ← cpu1.memory.read ((base + cpu1.x) % 0x10000)
      pure (v, cpu1)
  | .AbsoluteY => do
      let (base, cpu1) ← cpu.read_next_double progress_pc
      let v ← cpu1.memory.read ((base + cpu1.y) % 0x10000)
      pure (v, cpu1)
  | .IndirectX => do
      let (b, cpu1) ← cpu.read_next_byte progress_pc
      let ptr := (b + cpu1.x) % 256
      let address ← cpu1.read_double ptr
      let v ← cpu1.memory.read address
      pure (v, cpu1)
  | .IndirectY => do
      let (ptr, cpu1) ← cpu.read_next_byte progress_pc
      let lsb ← cpu1.memory.read ptr
      let msb ← cpu1.memory.read ((ptr + 1) % 256)
      let v ← cpu1.memory.read ((((msb <<< 8) ||| lsb) + cpu1.y) % 0x10000)
      pure (v, cpu1)
  | .ZeroPage => do
      let (b, cpu1) ← cpu.read_next_byte progress_pc
      let v ← cpu1.memory.read b
      pure (v, cpu1)
  | .ZeroPageX => do
      let (b, cpu1) ← cpu.read_next_byte progress_pc
      let v ← cpu1.memory.read ((b + cpu1.x) % 256)
      pure (v, cpu1)
  | .ZeroPageY => do
      let (b, cpu1) ← cpu.read_next_byte progress_pc
      let v ← cpu1.memory.read ((b + cpu1.y) % 256)
      pure (v, cpu1)
  | _ => none

/-- `CPU::write_byte`: resolve the addressing mode and store the byte.
Note the source resolves the `Absolute`/`AbsoluteX`/`AbsoluteY` operand
with `read_next_double(true)` regardless of `progress_pc`, and that the
`IndirectY` arm reads the pointer with `read_double` (a plain 16-bit
address increment, not a zero-page wrap). -/
def CPU.write_byte (cpu : CPU) (addressing : Addressing) (byte : Nat)
    (progress_pc : Bool) : Option CPU :=
  match addressing with
  | .Accumulator => some { cpu with a := byte }
  | .Absolute => do
      let (address, cpu1) ← cpu.read_next_double true
      let m ← cpu1.memory.write address byte
      pure { cpu1 with memory := m }
  | .AbsoluteX => do
      let (base, cpu1) ← cpu.read_next_double true
      let m ← cpu1.memory.write ((base + cpu1.x) % 0x10000) byte
      pure { cpu1 with memory := m }
  | .AbsoluteY => do
      let (base, cpu1) ← cpu.read_next_double true
      let m ← cpu1.memory.write ((base + cpu1.y) % 0x10000) byte
      pure { cpu1 with memory := m }
  | .IndirectX => do
      let (b, cpu1) ← cpu.read_next_byte progress_pc
      let ptr := (b + cpu1.x) % 256
      let address ← cpu1.read_double ptr
      let m ← cpu1.memory.write address byte
      pure { cpu1 with memory := m }
  | .IndirectY => do
      let (ptr, cpu1) ← cpu.read_next_byte progress_pc
      let base ← cpu1.read_double ptr
      let m ← cpu1.memory.write ((base + cpu1.y) % 0x10000) byte
      pure { cpu1 with memory := m }
  | .ZeroPage => do
      let (b, cpu1) ← cpu.read_next_byte progress_pc
      let m ← cpu1.memory.write b byte
      pure { cpu1 with memory := m }
  | .ZeroPageX => do
      let (b, cpu1) ← cpu.read_next_byte progress_pc
      let m ← cpu1.memory.write ((b + cpu1.x) % 256) byte
      pure { cpu1 with memory := m }
  | .ZeroPageY => do
      let (b, cpu1) ← cpu.read_next_byte progress_pc
      let m ← cpu1.memory.write ((b + cpu1.y) % 256) byte
      pure { cpu1 with memory := m }
  | _ => none

/-- `bcc` (src/cpu/opcodes/branch/carry.rs): branch when carry is clear.
The taken branch returns 3 cycles unconditionally; the page-cross extra
cycle exists only as the comment `3 // 4 if new page`. -/
def bcc (cpu : CPU) : Option (CPU × Nat) := do
  let (offset, cpu1) ← cpu.read_next_byte true
  if cpu1.flags.carry then pure (cpu1, 2)
  else pure (cpu1.offset_pc offset, 3)

/-- `bcs` (src/cpu/opcodes/branch/carry.rs): branch when carry is set. -/
def bcs (cpu : CPU) : Option (CPU × Nat) := do
  let (offset, cpu1) ← cpu.read_next_byte true
  if cpu1.flags.carry then pure (cpu1.offset_pc offset, 3)
  else pure (cpu1, 2)

/-- `bne` (src/cpu/opcodes/branch/zero.rs): branch when zero is clear. -/
def bne (cpu : CPU) : Option (CPU × Nat) := do
  let (offset, cpu1) ← cpu.read_next_byte true
  if cpu1.flags.zero then pure (cpu1, 2)
  else pure (cpu1.offset_pc offset, 3)

/-- `beq` (src/cpu/opcodes/branch/zero.rs): branch when zero is set. -/
def beq (cpu : CPU) : Option (CPU × Nat) := do
  let (offset, cpu1) ← cpu.read_next_byte true
  if cpu1.flags.zero then pure (cpu1.offset_pc offset, 3)
  else pure (cpu1, 2)

/-- `bpl` (src/cpu/opcodes/branch/negative.rs): branch when negative is
clear. -/
def bpl (cpu : CPU) : Option (CPU × Nat) := do
  let (offset, cpu1) ← cpu.read_next_byte true
  if cpu1.flags.negative then pure (cpu1, 2)
  else pure (cpu1.offset_pc offset, 3)

/-- `bmi` (src/cpu/opcodes/branch/negative.rs): branch when negative is
set. -/
def bmi (cpu : CPU) : Option (CPU × Nat) := do
  let (offset, cpu1) ← cpu.read_next_byte true
  if cpu1.flags.negative then pure (cpu1.offset_pc offset, 3)
  else pure (cpu1, 2)

/-- `bvc` (src/cpu/opcodes/branch/overflow.rs): branch when overflow is
clear. -/
def bvc (cpu : CPU) : Option (CPU × Nat) := do
  let (offset, cpu1) ← cpu.read_next_byte true
  if cpu1.flags.overflow then pure (cpu1, 2)
  else pure (cpu1.offset_pc offset, 3)

/-- `bvs` (src/cpu/opcodes/branch/overflow.rs): branch when overflow is
set. -/
def bvs (cpu : CPU) : Option (CPU × Nat) := do
  let (offset, cpu1) ← cpu.read_next_byte true
  if cpu1.flags.overflow then pure (cpu1.offset_pc offset, 3)
  else pure (cpu1, 2)

/-- `txs` (src/cpu/opcodes/storage/transfer.rs): the source sets the zero
and negative flags from X and then copies X into SP. -/
def txs (cpu : CPU) : CPU × Nat :=
  let f1 := cpu.flags.set_zero_from_byte cpu.x
  let f2 := f1.set_negative_from_byte cpu.x
  ({ cpu with flags := f2, sp := cpu.x }, 2)

/-- `jmp` (src/cpu/opcodes/jump/jmp.rs).  In `Indirect` mode, when the low
byte of the pointer is `0xFF` the high byte of the target is read from
`ptr & 0xFF00` (`!0xFF` as a `u16` is `0xFF00`) instead of `ptr + 1`. -/
def jmp (cpu : CPU) (addressing : Addressing) : Option (CPU × Nat) :=
  match addressing with
  | .Absolute => do
      let (address, cpu1) ← cpu.read_next_double true
      pure (cpu1.set_pc address, 3)
  | .Indirect => do
      let (indirect_addr, cpu1) ← cpu.read_next_double true
      if indirect_addr % 256 == 0xFF then do
        let lsb ← cpu1.raw_read_byte indirect_addr
        let msb ← cpu1.raw_read_byte (indirect_addr &&& 0xFF00)
        pure (cpu1.set_pc ((msb <<< 8) ||| lsb), 5)
      else do
        let address ← cpu1.read_double indirect_addr
        pure (cpu1.set_pc address, 5)
  | _ => none

/-- `jsr` (src/cpu/opcodes/jump/jmp.rs): read the target, push
`PC - 1` high byte first, low byte second, and jump. -/
def jsr (cpu : CPU) (addressing : Addressing) : Option (CPU × Nat) :=
  match addressing with
  | .Absolute => do
      let (address, cpu1) ← cpu.read_next_double true
      let return_addr := (cpu1.pc + 0xFFFF) % 0x10000
      let cpu2 ← cpu1.push_stack ((return_addr >>> 8) % 256)
      let cpu3 ← cpu2.push_stack (return_addr % 256)
      pure (cpu3.set_pc address, 6)
  | _ => none

/-- `rts` (src/cpu/opcodes/jump/ret.rs): pop the low byte, then the high
byte, and set PC to the popped word plus one. -/
def rts (cpu : CPU) : Option (CPU × Nat) := do
  let (lsb, cpu1) ← cpu.pop_stack
  let (msb, cpu2) ← cpu1.pop_stack
  let pc1 := (((msb <<< 8) ||| lsb) + 1) % 0x10000
  pure (cpu2.set_pc pc1, 6)

/-- `nrom` (src/cpu/mod.rs): populate the 32 KiB PRG-ROM from an iNES
buffer with mapper 0; one 16 KiB bank is mirrored into both halves. -/
def nrom (cpu : CPU) (buffer : List Nat) : Option CPU := do
  let b6 ← buffer.get? 6
  let trainer := b6 &&& 0b00000100 > 0
  let bank_offset := if trainer then 16 + 512 else 16
  let b4 ← buffer.get? 4
  match b4 with
  | 1 => do
      let bank ← listSlice buffer bank_offset (bank_offset + 0x4000)
      let m ← cpu.memory.load_rom (bank ++ bank)
      pure { cpu with memory := m }
  | 2 => do
      let bank ← listSlice buffer bank_offset (bank_offset + 0x8000)
      let m ← cpu.memory.load_rom bank
      pure { cpu with memory := m }
  | _ => none

/-- `CPU::process_file`: check the iNES magic, extract the mapper number,
and dispatch to the mapper loader (only NROM is supported). -/
def CPU.process_file (cpu : CPU) (buffer : List Nat) : Option CPU := do
  let magic ← listSlice buffer 0 4
  if magic ≠ [0x4E, 0x45, 0x53, 0x1A] then none
  else do
    let rcb1 ← buffer.get? 6
    let rcb2 ← buffer.get? 7
    match ((rcb1 &&& 0b11110000) >>> 4) ||| (rcb2 &&& 0b11110000) with
    | 0 => nrom cpu buffer
    | _ => none

/-- `CPU::reset_vector`: jump to the address stored at `0xFFFC`. -/
def CPU.reset_vector (cpu : CPU) : Option CPU := do
  let address ← cpu.read_double 0xFFFC
  pure (cpu.set_pc address)

/-- `CPU::load_file`, with the file contents passed as the byte list the
source reads from disk: process the iNES image, load empty RAM and SRAM,
and jump through the reset vector.  Nothing here touches the flag
register, SP, A, X or Y. -/
def CPU.load_file (cpu : CPU) (buffer : List Nat) : Option CPU := do
  let cpu1 ← cpu.process_file buffer
  let m2 ← cpu1.memory.load_ram []
  let m3 ← m2.load_sram []
  CPU.reset_vector { cpu1 with memory := m3 }

/-! ### A concrete NROM image and the CPU state it loads to -/

/-- A minimal single-bank iNES image: a 16-byte header (magic, one PRG
bank, mapper 0) followed by a 16 KiB bank of zeros. -/
def demoFile : List Nat :=
  [0x4E, 0x45, 0x53, 0x1A, 0x01, 0x00, 0x00, 0x00,
   0x00, 0x00, 0x00, 0x00, 0x00, 0x00, 0x00, 0x00] ++
    List.replicate 0x4000 0x00

/-- The ROM-only memory state after `process_file` on `demoFile`. -/
def demoRomMemory : Memory :=
  { Memory.new with rom := List.replicate ROM_SIZE 0x00 }

/-- `demoRomMemory` after RAM is loaded. -/
def demoRamMemory : Memory :=
  { demoRomMemory with ram := List.replicate RAM_SIZE 0x00 }

/-- The memory state `load_file` produces from `demoFile`. -/
def demoMemory : Memory :=
  { demoRamMemory with sram := List.replicate SRAM_SIZE 0x00 }

/-- The CPU state `load_file` produces from `demoFile` on a fresh CPU. -/
def demoLoadedCPU : CPU :=
  { memory := demoMemory, flags := Flags.new, pc := 0, sp := 0xFD,
    a := 0, x := 0, y := 0 }

/-- A CPU about to execute the operand of BCC: PC points at the offset
byte `0x20` stored at `0x00F1` (the spec scenario `90 20` at `0x00F0`),
carry clear. -/
def branchDemoCPU : CPU :=
  { CPU.new with
    pc := 0x00F1,
    memory := { Memory.new with
                ram := (List.replicate 0x0100 0x00).set 0xF1 0x20 } }

/-- A CPU about to execute the operand of `JMP (0x01FF)`: the pointer
bytes `FF 01` sit at PC `0x0000`, the target low byte `0x22` at `0x01FF`,
and `0x11` at `0x0100` (the same-page mirror the hardware bug reads). -/
def jmpDemoCPU : CPU :=
  { CPU.new with
    pc := 0x0000,
    memory := { Memory.new with
                ram := ((((List.replicate 0x0200 0x00).set 0 0xFF).set
                  1 0x01).set 0x1FF 0x22).set 0x100 0x11 } }

/-- A CPU about to execute an IndirectY operand: the zero-page pointer
byte `0xFF` sits at PC `0x0010`; the pointer low byte `0x05` is at
`0x00FF`, the zero-page-wrapped high byte `0x02` at `0x0000`, and the
unwrapped high byte `0x03` at `0x0100`. -/
def indYDemoCPU : CPU :=
  { CPU.new with
    pc := 0x0010,
    memory := { Memory.new with
                ram := ((((List.replicate 0x0400 0x00).set 0x10 0xFF).set
                  0x00 0x02).set 0xFF 0x05).set 0x100 0x03 } }

/-- A CPU about to execute the operand of `JSR 0x1234`: the operand bytes
`34 12` sit at PC `0x0010`, SP is `0xFD`, and the full 2 KiB RAM is
loaded. -/
def jsrDemoCPU : CPU :=
  { CPU.new with
    pc := 0x0010,
    sp := 0xFD,
    memory := { Memory.new with
                ram := ((List.replicate RAM_SIZE 0x00).set 0x10 0x34).set
                  0x11 0x12 } }

/-! ### Helper lemmas -/

/-- Value of the little-endian byte composition used throughout the source:
for a low byte below `2 ^ k`, `hi <<< k ||| lo` is `2 ^ k * hi + lo`. -/
theorem shiftLeft_lor_eq (k : Nat) :
    ∀ hi lo : Nat, lo < 2 ^ k → (hi <<< k) ||| lo = 2 ^ k * hi + lo := by
  induction k with
  | zero =>
    intro hi lo h
    have hlo : lo = 0 := by omega
    subst hlo
    simp [Nat.shiftLeft_eq]
  | succ k ih =>
    intro hi lo h
    have hd : Nat.div2 lo < 2 ^ k := by
      rw [Nat.div2_val]
      omega
    have hbit := Nat.bit_decomp lo
    have hsl : hi <<< (k + 1) = Nat.bit false (hi <<< k) := by
      simp [Nat.bit, Nat.shiftLeft_eq, Nat.pow_succ]
      ring
    calc (hi <<< (k + 1)) ||| lo
        = Nat.bit false (hi <<< k) ||| Nat.bit (Nat.bodd lo) (Nat.div2 lo) := by
          rw [hbit, hsl]
      _ = Nat.bit (false || Nat.bodd lo) ((hi <<< k) ||| Nat.div2 lo) := by
          rw [Nat.lor_bit]
      _ = Nat.bit (Nat.bodd lo) (2 ^ k * hi + Nat.div2 lo) := by
          rw [ih hi (Nat.div2 lo) hd, Bool.false_or]
      _ = 2 ^ (k + 1) * hi + lo := by
          have hb := Nat.bodd_add_div2 lo
          have hp : 2 ^ (k + 1) * hi = 2 * (2 ^ k * hi) := by ring
          rw [hp]
          cases hlo : Nat.bodd lo <;> simp [Nat.bit, hlo] at hb ⊢ <;> omega

/-- Byte-level specialisation of `shiftLeft_lor_eq`. -/
theorem byte_lor_eq (hi lo : Nat) (hl : lo < 256) :
    (hi <<< 8) ||| lo = 256 * hi + lo :=
  shiftLeft_lor_eq 8 hi lo hl

theorem demoFile_length : demoFile.length = 16 + 0x4000 := by
  unfold demoFile
  rw [List.length_append, List.length_replicate]
  rfl

theorem demoFile_drop_16 : demoFile.drop 16 = List.replicate 0x4000 0x00 := by
  rfl

/-- Symbolic characterisation of `load_file` as the chain of its stages. -/
theorem load_file_eq (cpu : CPU) (buffer : List Nat) (c1 : CPU)
    (m2 m3 : Memory) (c2 : CPU)
    (h1 : cpu.process_file buffer = some c1)
    (h2 : c1.memory.load_ram [] = some m2)
    (h3 : m2.load_sram [] = some m3)
    (h4 : CPU.reset_vector { c1 with memory := m3 } = some c2) :
    cpu.load_file buffer = some c2 := by
  unfold CPU.load_file
  rw [h1]
  simp only [Option.bind_eq_bind, Option.some_bind]
  rw [h2]
  simp only [Option.some_bind]
  rw [h3]
  simp only [Option.some_bind]
  exact h4

/-- Symbolic characterisation of `process_file` when the magic matches and
the mapper is zero. -/
theorem process_file_via_nrom (cpu : CPU) (buffer : List Nat) (b6 b7 : Nat)
    (c : CPU)
    (hm : listSlice buffer 0 4 = some [0x4E, 0x45, 0x53, 0x1A])
    (h6 : buffer[6]? = some b6) (h7 : buffer[7]? = some b7)
    (hmap : ((b6 &&& 0b11110000) >>> 4) ||| (b7 &&& 0b11110000) = 0)
    (hn : nrom cpu buffer = some c) :
    cpu.process_file buffer = some c := by
  unfold CPU.process_file
  rw [hm]
  simp only [Option.bind_eq_bind, Option.some_bind]
  norm_num
  rw [h6, h7]
  simp only [Option.some_bind]
  rw [hmap]
  exact hn

/-- Symbolic characterisation of `nrom` for a trainer-free single-bank
image. -/
theorem nrom_one_bank (cpu : CPU) (buffer : List Nat) (b6 : Nat)
    (bank : List Nat) (m : Memory)
    (h6 : buffer.get? 6 = some b6) (htr : b6 &&& 0b00000100 = 0)
    (h4 : buffer[4]? = some 1)
    (hs : listSlice buffer 16 16400 = some bank)
    (hl : cpu.memory.load_rom (bank ++ bank) = some m) :
    nrom cpu buffer = some { cpu with memory := m } := by
  unfold nrom
  rw [h6]
  simp only [Option.bind_eq_bind, Option.some_bind]
  rw [htr]
  norm_num
  rw [h4]
  simp only [Option.some_bind]
  rw [hs]
  simp only [Option.some_bind]
  rw [hl]
  simp only [Option.some_bind]

/-- `load_ram` of the empty vector yields a zero-filled RAM. -/
theorem load_ram_nil (m : Memory) :
    m.load_ram [] = some { m with ram := List.replicate RAM_SIZE 0x00 } := by
  unfold Memory.load_ram listResize
  norm_num

/-- `load_sram` of the empty vector yields a zero-filled SRAM. -/
theorem load_sram_nil (m : Memory) :
    m.load_sram [] = some { m with sram := List.replicate SRAM_SIZE 0x00 } := by
  unfold Memory.load_sram listResize
  norm_num

/-- `Memory.read` routed into the PRG-ROM region. -/
theorem read_rom (m : Memory) (addr v : Nat) (h1 : 0x8000 ≤ addr)
    (h2 : addr ≤ 0xFFFF) (hrom : m.rom.get? (addr - 0x8000) = some v) :
    m.read addr = some v := by
  unfold Memory.read
  rw [if_neg (by omega), if_neg (by omega), if_neg (by omega),
      if_neg (by omega), if_neg (by omega), if_pos (by omega)]
  exact hrom

/-- Symbolic characterisation of `read_double`. -/
theorem read_double_eq (cpu : CPU) (address lo hi : Nat)
    (h1 : cpu.memory.read address = some lo)
    (h2 : cpu.memory.read ((address + 1) % 0x10000) = some hi) :
    cpu.read_double address = some ((hi <<< 8) ||| lo) := by
  unfold CPU.read_double
  rw [h1]
  simp only [Option.bind_eq_bind, Option.some_bind]
  rw [h2]
  simp only [Option.some_bind]
  rfl

/-- Symbolic characterisation of `reset_vector`. -/
theorem reset_vector_eq (cpu : CPU) (adr : Nat)
    (h : cpu.read_double 0xFFFC = some adr) :
    cpu.reset_vector = some (cpu.set_pc adr) := by
  unfold CPU.reset_vector
  rw [h]
  simp only [Option.bind_eq_bind, Option.some_bind]
  rfl

theorem demoRom_get (i : Nat) (h : i < ROM_SIZE) :
    (List.replicate ROM_SIZE 0x00).get? i = some 0 := by
  rw [List.get?_eq_getElem?, List.getElem?_replicate, if_pos h]

/-- Inversion for a successful `Option` bind. -/
theorem bind_some_inv {α β : Type} {o : Option α} {f : α → Option β} {b : β}
    (h : (o >>= f) = some b) : ∃ a, o = some a ∧ f a = some b := by
  cases o with
  | none => exact absurd h (by simp)
  | some a => exact ⟨a, rfl, h⟩

/-- A successful `load_rom` only replaces the `rom` field. -/
theorem load_rom_shape (m m' : Memory) (r : List Nat)
    (h : m.load_rom r = some m') :
    m' = { m with rom := listResize r ROM_SIZE 0x00 } := by
  unfold Memory.load_rom at h
  split at h
  · exact absurd h (by simp)
  · exact (Option.some.inj h).symm

/-- A successful `nrom` only replaces the memory, and the new memory keeps
every region but `rom`. -/
theorem nrom_shape (cpu : CPU) (buffer : List Nat) (c : CPU)
    (h : nrom cpu buffer = some c) :
    ∃ r, c = { cpu with memory := { cpu.memory with rom := r } } := by
  unfold nrom at h
  obtain ⟨b6, h6, h⟩ := bind_some_inv h
  obtain ⟨b4, h4, h⟩ := bind_some_inv h
  split at h
  · obtain ⟨bank, hb, h⟩ := bind_some_inv h
    obtain ⟨m, hm, h⟩ := bind_some_inv h
    rw [load_rom_shape _ _ _ hm] at h
    exact ⟨_, (Option.some.inj h).symm⟩
  · obtain ⟨bank, hb, h⟩ := bind_some_inv h
    obtain ⟨m, hm, h⟩ := bind_some_inv h
    rw [load_rom_shape _ _ _ hm] at h
    exact ⟨_, (Option.some.inj h).symm⟩
  · exact absurd h (by simp)

/-- A successful `process_file` only replaces the ROM region. -/
theorem process_file_shape (cpu : CPU) (buffer : List Nat) (c : CPU)
    (h : cpu.process_file buffer = some c) :
    ∃ r, c = { cpu with memory := { cpu.memory with rom := r } } := by
  unfold CPU.process_file at h
  obtain ⟨magic, hm, h⟩ := bind_some_inv h
  split at h
  · exact absurd h (by simp)
  · obtain ⟨b6, h6, h⟩ := bind_some_inv h
    obtain ⟨b7, h7, h⟩ := bind_some_inv h
    split at h
    · exact nrom_shape _ _ _ h
    · exact absurd h (by simp)

/-- Inversion for `load_file`: a successful load keeps the flags and the
registers of the starting CPU, zero-fills RAM and SRAM, keeps the
expansion region, and points PC at the word stored at `0xFFFC`. -/
theorem load_file_inv (cpu : CPU) (buffer : List Nat) (c : CPU)
    (h : cpu.load_file buffer = some c) :
    ∃ r adr,
      c = { cpu with
            memory := { cpu.memory with
                        rom := r,
                        ram := List.replicate RAM_SIZE 0x00,
                        sram := List.replicate SRAM_SIZE 0x00 },
            pc := adr } ∧
      CPU.read_double c 0xFFFC = some adr := by
  unfold CPU.load_file at h
  obtain ⟨c1, h1, h⟩ := bind_some_inv h
  obtain ⟨m2, h2, h⟩ := bind_some_inv h
  obtain ⟨m3, h3, h⟩ := bind_some_inv h
  obtain ⟨r, hshape⟩ := process_file_shape _ _ _ h1
  subst hshape
  rw [load_ram_nil] at h2
  replace h2 := (Option.some.inj h2)
  subst h2
  rw [load_sram_nil] at h3
  replace h3 := (Option.some.inj h3)
  subst h3
  unfold CPU.reset_vector at h
  obtain ⟨adr, ha, h⟩ := bind_some_inv h
  replace h := (Option.some.inj h)
  subst h
  refine ⟨r, adr, rfl, ?_⟩
  exact ha

theorem load_file_demo : CPU.new.load_file demoFile = some demoLoadedCPU := by
  have hmagic : listSlice demoFile 0 4 = some [0x4E, 0x45, 0x53, 0x1A] := by
    unfold listSlice
    rw [demoFile_length]
    norm_num
    rfl
  have hbank : listSlice demoFile 16 16400 =
      some (List.replicate 0x4000 0x00) := by
    unfold listSlice
    rw [demoFile_length]
    norm_num
    rw [demoFile_drop_16, List.take_replicate, Nat.min_self]
  have hrom : Memory.new.load_rom
      (List.replicate 0x4000 0x00 ++ List.replicate 0x4000 0x00) =
      some demoRomMemory := by
    rw [← List.replicate_add]
    unfold Memory.load_rom listResize ROM_SIZE demoRomMemory
    rw [List.length_replicate, List.take_replicate, Nat.min_self]
    norm_num
    rfl
  have hpf : CPU.new.process_file demoFile =
      some { CPU.new with memory := demoRomMemory } :=
    process_file_via_nrom CPU.new demoFile 0 0 _
      hmagic
      (by rw [← List.get?_eq_getElem?]; exact rfl)
      (by rw [← List.get?_eq_getElem?]; exact rfl)
      (by norm_num)
      (nrom_one_bank CPU.new demoFile 0 (List.replicate 0x4000 0x00)
        demoRomMemory rfl (by norm_num)
        (by rw [← List.get?_eq_getElem?]; exact rfl)
        hbank hrom)
  have hrd : CPU.read_double
      { { CPU.new with memory := demoRomMemory } with memory := demoMemory }
      0xFFFC = some ((0 <<< 8) ||| 0) :=
    read_double_eq _ 0xFFFC 0 0
      (read_rom demoMemory 0xFFFC 0 (by norm_num) (by norm_num)
        (demoRom_get 0x7FFC (by unfold ROM_SIZE; norm_num)))
      (read_rom demoMemory ((0xFFFC + 1) % 0x10000) 0 (by norm_num)
        (by norm_num)
        (demoRom_get ((0xFFFC + 1) % 0x10000 - 0x8000)
          (by unfold ROM_SIZE; norm_num)))
  exact load_file_eq CPU.new demoFile
    { CPU.new with memory := demoRomMemory } demoRamMemory demoMemory
    demoLoadedCPU hpf (load_ram_nil demoRomMemory)
    (load_sram_nil demoRamMemory)
    (reset_vector_eq _ ((0 <<< 8) ||| 0) hrd)

/-- `read_next_byte` with the PC byte known. -/
theorem read_next_byte_eq (m : Memory) (fl : Flags) (pc sp a x y v : Nat)
    (h : m.read pc = some v) :
    CPU.read_next_byte ⟨m, fl, pc, sp, a, x, y⟩ true =
      some (v, ⟨m, fl, (pc + 1) % 0x10000, sp, a, x, y⟩) := by
  unfold CPU.read_next_byte
  dsimp only
  rw [h]
  rfl

/-- `read_next_double` with both operand bytes known. -/
theorem read_next_double_eq (m : Memory) (fl : Flags) (pc sp a x y : Nat)
    (lo hi : Nat) (h1 : m.read pc = some lo)
    (h2 : m.read ((pc + 1) % 0x10000) = some hi) :
    CPU.read_next_double ⟨m, fl, pc, sp, a, x, y⟩ true =
      some ((hi <<< 8) ||| lo, ⟨m, fl, (pc + 2) % 0x10000, sp, a, x, y⟩) := by
  unfold CPU.read_next_double
  dsimp only
  rw [h1]
  simp only [Option.bind_eq_bind, Option.some_bind]
  rw [h2]
  rfl

/-- `push_stack` with the stack write known to succeed. -/
theorem push_stack_eq (m : Memory) (fl : Flags) (pc sp a x y byte : Nat)
    (m2 : Memory) (h : m.write (sp + 0x0100) byte = some m2) :
    CPU.push_stack ⟨m, fl, pc, sp, a, x, y⟩ byte =
      some ⟨m2, fl, pc, (sp + 255) % 256, a, x, y⟩ := by
  unfold CPU.push_stack
  dsimp only
  rw [h]
  rfl

/-- `pop_stack` with the stack byte known. -/
theorem pop_stack_eq (m : Memory) (fl : Flags) (pc sp a x y v : Nat)
    (h : m.read ((sp + 1) % 256 + 0x0100) = some v) :
    CPU.pop_stack ⟨m, fl, pc, sp, a, x, y⟩ =
      some (v, ⟨m, fl, pc, (sp + 1) % 256, a, x, y⟩) := by
  unfold CPU.pop_stack
  dsimp only
  rw [h]
  rfl

/-- `Memory.read` routed into RAM. -/
theorem read_ram (m : Memory) (addr : Nat) (h1 : addr ≤ 0x1FFF) :
    m.read addr = m.ram.get? (addr % 0x0800) := by
  unfold Memory.read
  rw [if_pos h1]

/-- `Memory.write` routed into RAM. -/
theorem write_ram (m : Memory) (addr byte : Nat) (h1 : addr ≤ 0x1FFF)
    (h2 : addr % 0x0800 < m.ram.length) :
    m.write addr byte =
      some { m with ram := m.ram.set (addr % 0x0800) byte } := by
  unfold Memory.write
  rw [if_pos h1, if_pos h2]

/-! ### Claim theorems -/

/-- C1, counterexample: packing the flags unpacked from the byte `0x00`
yields `0x00`, not `(0x00 | 0x20) & 0xEF = 0x20`: `as_byte` never sets
bit 5. -/
theorem C1_counterexample :
    (Flags.new.set_from_byte 0x00).as_byte ≠ ((0x00 ||| 0x20) &&& 0xEF) := by
  decide

set_option maxRecDepth 4000 in
/-- C1 (amended): for every starting flag register and every byte `b`,
`as_byte (set_from_byte b)` is `b &&& 0xC7` — the N, V, I, Z, C bits at
positions 7, 6, 2, 1, 0 survive the round trip, while bits 5, 4 and 3
come back as zero (the source sets no bit 5 and has no decimal flag). -/
theorem C1_flag_round_trip (f : Flags) (b : Nat) (hb : b < 256) :
    (f.set_from_byte b).as_byte = b &&& 0xC7 := by
  have h : ∀ b' : Nat, b' < 256 →
      (Flags.new.set_from_byte b').as_byte = b' &&& 0xC7 := by decide
  have heq : (f.set_from_byte b).as_byte =
      (Flags.new.set_from_byte b).as_byte := by
    obtain ⟨c, z, i, bk, v, n⟩ := f
    simp [Flags.set_from_byte, Flags.as_byte, Flags.new]
  rw [heq]
  exact h b hb

theorem C1_flag_round_trip_witness :
    (0xFF : Nat) < 256 ∧ (Flags.new.set_from_byte 0xFF).as_byte = 0xFF &&& 0xC7 :=
  ⟨by decide, C1_flag_round_trip Flags.new 0xFF (by decide)⟩

/-- C3, counterexample: `load_file` succeeds on the concrete NROM image
`demoFile` and leaves the interrupt-disable flag `false`, not `true` as
the claim states. -/
theorem C3_counterexample :
    (CPU.new.load_file demoFile).map (fun c => c.flags.interrupt_disable) =
      some false := by
  rw [load_file_demo]
  rfl

/-- C3 (amended): after a successful `load_file` on a fresh CPU, PC holds
the little-endian word stored at `0xFFFC`/`0xFFFD` and SP is `0xFD`
(untouched from the `CPU::default` value), but the interrupt-disable flag
is `false`: `load_file` never touches the flag register and the default
clears I. -/
theorem C3_load_state (buffer : List Nat) (c : CPU)
    (h : CPU.new.load_file buffer = some c) :
    c.read_double 0xFFFC = some c.pc ∧ c.sp = 0xFD ∧
    c.flags.interrupt_disable = false := by
  obtain ⟨r, adr, hc, hrd⟩ := load_file_inv CPU.new buffer c h
  subst hc
  exact ⟨hrd, rfl, rfl⟩

theorem C3_load_state_witness :
    demoLoadedCPU.read_double 0xFFFC = some demoLoadedCPU.pc ∧
    demoLoadedCPU.sp = 0xFD ∧
    demoLoadedCPU.flags.interrupt_disable = false :=
  C3_load_state demoFile demoLoadedCPU load_file_demo

/-- C4 (confirmed): a read in `0x0000..=0x1FFF` returns the RAM byte at
index `addr % 0x0800`, and every mirror `addr % 0x0800 + k` for
`k ∈ {0, 0x0800, 0x1000, 0x1800}` reads the same value. -/
theorem C4_ram_mirror (m : Memory) (addr k : Nat) (h : addr ≤ 0x1FFF)
    (hk : k = 0 ∨ k = 0x0800 ∨ k = 0x1000 ∨ k = 0x1800) :
    m.read addr = m.ram.get? (addr % 0x0800) ∧
    m.read (addr % 0x0800 + k) = m.read (addr % 0x0800) := by
  have h1 : addr % 0x0800 < 0x0800 := Nat.mod_lt _ (by norm_num)
  constructor
  · unfold Memory.read
    rw [if_pos h]
  · have hidx : (addr % 0x0800 + k) % 0x0800 = addr % 0x0800 % 0x0800 := by
      rcases hk with hk | hk | hk | hk <;> subst hk <;> omega
    have hle : addr % 0x0800 + k ≤ 0x1FFF := by
      rcases hk with hk | hk | hk | hk <;> subst hk <;> omega
    unfold Memory.read
    rw [if_pos hle, if_pos (by omega), hidx]

theorem C4_ram_mirror_witness :
    demoMemory.read 0x1234 = demoMemory.ram.get? (0x1234 % 0x0800) ∧
    demoMemory.read (0x1234 % 0x0800 + 0x0800) =
      demoMemory.read (0x1234 % 0x0800) :=
  C4_ram_mirror demoMemory 0x1234 0x0800 (by norm_num) (Or.inr (Or.inl rfl))

/-- C5 (code bug): the spec scenario `90 20` at `0x00F0` with carry clear
takes the branch from `0x00F2` to `0x0112`, which crosses a page, yet
`bcc` reports 3 cycles — the page-cross extra cycle required by the claim
(and by the doc comment of `bcc` itself) is never added. -/
theorem C5_branch_taken_cycles :
    (bcc branchDemoCPU).map (fun r => (r.1.pc, r.2)) = some (0x0112, 3) ∧
    0x00F2 / 0x100 ≠ 0x0112 / 0x100 := by
  constructor
  · decide
  · decide

/-- C6 (code bug): `txs` does copy X into SP, but it also rewrites the
zero and negative flags from X — here the zero flag flips from `false`
to `true` — although the claim (and the 6502) say TXS leaves every flag
unchanged. -/
theorem C6_txs_modifies_flags :
    (txs CPU.new).1.sp = CPU.new.x ∧ (txs CPU.new).2 = 2 ∧
    CPU.new.flags.zero = false ∧ (txs CPU.new).1.flags.zero = true := by
  decide

/-- C9, counterexample: a write into the cartridge expansion area is not
accepted: `Memory::write` has no arm for `0x4020..=0x5FFF`, so the write
at `0x4020` panics (`none`) even on a fully loaded memory. -/
theorem C9_counterexample : demoMemory.write 0x4020 0xAB = none := by
  decide

/-- C9 (amended): writes to the PPU window (`0x2000..=0x3FFF`, stored
mod 8) and the APU/IO window (`0x4000..=0x401F`) are accepted as plain
byte stores, but writes to the expansion area (`0x4020..=0x5FFF`) panic. -/
theorem C9_write_windows (m : Memory) (addr byte : Nat)
    (hio : m.io.length = IO_SIZE) :
    ((0x2000 ≤ addr ∧ addr ≤ 0x3FFF) →
      m.write addr byte =
        some { m with io := m.io.set ((addr - 0x2000) % 0x0008) byte }) ∧
    ((0x4000 ≤ addr ∧ addr ≤ 0x401F) →
      m.write addr byte =
        some { m with io := m.io.set (addr - 0x4000 + 0x0008) byte }) ∧
    ((0x4020 ≤ addr ∧ addr ≤ 0x5FFF) → m.write addr byte = none) := by
  have hio8 : m.io.length = 0x28 := hio.trans rfl
  have hmod : (addr - 0x2000) % 0x0008 < 8 :=
    Nat.mod_lt _ (by norm_num)
  refine ⟨fun h => ?_, fun h => ?_, fun h => ?_⟩ <;> unfold Memory.write
  · rw [if_neg (by omega), if_pos (by omega), if_pos (by omega)]
  · rw [if_neg (by omega), if_neg (by omega), if_pos (by omega),
        if_pos (by omega)]
  · rw [if_neg (by omega), if_neg (by omega), if_neg (by omega),
        if_pos (by omega)]

theorem C9_write_windows_witness :
    ((0x2000 ≤ 0x2005 ∧ 0x2005 ≤ 0x3FFF) →
      demoMemory.write 0x2005 0xAB =
        some { demoMemory with
               io := demoMemory.io.set ((0x2005 - 0x2000) % 0x0008) 0xAB }) ∧
    ((0x4000 ≤ 0x2005 ∧ 0x2005 ≤ 0x401F) →
      demoMemory.write 0x2005 0xAB =
        some { demoMemory with
               io := demoMemory.io.set (0x2005 - 0x4000 + 0x0008) 0xAB }) ∧
    ((0x4020 ≤ 0x2005 ∧ 0x2005 ≤ 0x5FFF) →
      demoMemory.write 0x2005 0xAB = none) :=
  C9_write_windows demoMemory 0x2005 0xAB
    (show (List.replicate IO_SIZE 0x00).length = IO_SIZE from
      List.length_replicate IO_SIZE 0x00)

/-- C10 (confirmed): `load_file` never populates the expansion region —
it stays the empty vector of `Memory::default` — so after any successful
`load_file` on a fresh CPU, a read anywhere in `0x4020..=0x5FFF` indexes
an empty backing store and panics (`none`). -/
theorem C10_expansion_read_none (buffer : List Nat) (c : CPU)
    (h : CPU.new.load_file buffer = some c) (addr : Nat)
    (h1 : 0x4020 ≤ addr) (h2 : addr ≤ 0x5FFF) :
    c.memory.read addr = none := by
  obtain ⟨r, adr, hc, _⟩ := load_file_inv CPU.new buffer c h
  subst hc
  unfold Memory.read
  rw [if_neg (by omega), if_neg (by omega), if_neg (by omega),
      if_pos (by omega)]
  rfl

theorem C10_expansion_read_none_witness :
    demoLoadedCPU.memory.read 0x4020 = none :=
  C10_expansion_read_none demoFile demoLoadedCPU load_file_demo 0x4020
    (by norm_num) (by norm_num)


/-- C2 (confirmed): for a JMP with Indirect addressing whose pointer is
`256 * ph + pl`, the low byte of the target is read from the pointer; the
high byte is read from `ptr & 0xFF00` when `pl = 0xFF` (the hardware
page-wrap bug) and from `ptr + 1` otherwise, and PC is set to the
little-endian combination, for 5 cycles. -/
theorem C2_jmp_indirect (m : Memory) (fl : Flags) (pc sp a x y : Nat)
    (pl ph lo hiBug hiNext : Nat)
    (hpl : m.read pc = some pl)
    (hph : m.read ((pc + 1) % 0x10000) = some ph)
    (hpl8 : pl < 256) (hph8 : ph < 256) :
    (pl = 0xFF →
      m.read (256 * ph + pl) = some lo →
      m.read ((256 * ph + pl) &&& 0xFF00) = some hiBug →
      jmp ⟨m, fl, pc, sp, a, x, y⟩ .Indirect =
        some (⟨m, fl, (hiBug <<< 8) ||| lo, sp, a, x, y⟩, 5)) ∧
    (pl ≠ 0xFF →
      m.read (256 * ph + pl) = some lo →
      m.read (256 * ph + pl + 1) = some hiNext →
      jmp ⟨m, fl, pc, sp, a, x, y⟩ .Indirect =
        some (⟨m, fl, (hiNext <<< 8) ||| lo, sp, a, x, y⟩, 5)) := by
  have hcomb : (ph <<< 8) ||| pl = 256 * ph + pl := byte_lor_eq ph pl hpl8
  constructor
  · intro hFF hlo hhi
    subst hFF
    unfold jmp
    dsimp only
    rw [read_next_double_eq m fl pc sp a x y 0xFF ph hpl hph]
    simp only [Option.bind_eq_bind, Option.some_bind]
    rw [hcomb,
        if_pos (show ((256 * ph + 0xFF) % 256 == 0xFF) = true from by
          rw [show (256 * ph + 0xFF) % 256 = 0xFF from by omega]
          rfl)]
    unfold CPU.raw_read_byte
    dsimp only
    rw [hlo]
    simp only [Option.bind_eq_bind, Option.some_bind]
    rw [hhi]
    rfl
  · intro hFF hlo hhi
    unfold jmp
    dsimp only
    rw [read_next_double_eq m fl pc sp a x y pl ph hpl hph]
    simp only [Option.bind_eq_bind, Option.some_bind]
    rw [hcomb,
        if_neg (show ¬((256 * ph + pl) % 256 == 0xFF) = true from by
          rw [show (256 * ph + pl) % 256 = pl from by omega]
          simp only [beq_iff_eq]
          exact hFF)]
    unfold CPU.read_double
    dsimp only
    rw [hlo]
    simp only [Option.bind_eq_bind, Option.some_bind]
    rw [show (256 * ph + pl + 1) % 0x10000 = 256 * ph + pl + 1 from
          Nat.mod_eq_of_lt (by omega)]
    rw [hhi]
    rfl

set_option maxRecDepth 8000 in
theorem C2_jmp_indirect_witness :
    jmp ⟨jmpDemoCPU.memory, Flags.new, 0x0000, 0xFD, 0, 0, 0⟩ .Indirect =
      some (⟨jmpDemoCPU.memory, Flags.new, (0x11 <<< 8) ||| 0x22,
             0xFD, 0, 0, 0⟩, 5) :=
  (C2_jmp_indirect jmpDemoCPU.memory Flags.new 0x0000 0xFD 0 0 0
      0xFF 0x01 0x22 0x11 0x33 (by decide) (by decide) (by decide)
      (by decide)).1 rfl (by decide) (by decide)

set_option maxRecDepth 8000 in
/-- C8, counterexample: with the zero-page pointer byte `0xFF`,
`write_byte` in IndirectY mode reads the high pointer byte from `0x0100`,
not from the zero-page-wrapped `0x0000`: the stored byte lands at
`0x0305` (high byte from `0x0100`) while the address the claim predicts,
`0x0205`, is untouched. -/
theorem C8_counterexample :
    ((CPU.write_byte indYDemoCPU .IndirectY 0xAB true).bind
        (fun c => c.memory.read 0x0205) = some 0x00) ∧
    ((CPU.write_byte indYDemoCPU .IndirectY 0xAB true).bind
        (fun c => c.memory.read 0x0305) = some 0xAB) := by
  constructor
  · decide
  · decide

/-- C8 (amended): IndirectY reads (`read_byte`) wrap the pointer high
byte inside the zero page — high from `(z + 1) % 256` — but IndirectY
writes (`write_byte`) resolve the pointer with `read_double`, whose high
byte comes from `z + 1` as a 16-bit address, so at `z = 0xFF` it is read
from `0x0100` instead of `0x0000`. -/
theorem C8_indirect_y (m : Memory) (fl : Flags) (pc sp a x y : Nat)
    (z lo hiWrap hiNoWrap b : Nat)
    (hz : m.read pc = some z) (hz8 : z < 256)
    (hlo : m.read z = some lo)
    (hwrap : m.read ((z + 1) % 256) = some hiWrap)
    (hnowrap : m.read (z + 1) = some hiNoWrap) :
    CPU.read_byte ⟨m, fl, pc, sp, a, x, y⟩ .IndirectY true =
      (m.read ((((hiWrap <<< 8) ||| lo) + y) % 0x10000)).bind
        (fun v => some (v, ⟨m, fl, (pc + 1) % 0x10000, sp, a, x, y⟩)) ∧
    CPU.write_byte ⟨m, fl, pc, sp, a, x, y⟩ .IndirectY b true =
      (m.write ((((hiNoWrap <<< 8) ||| lo) + y) % 0x10000) b).bind
        (fun mm => some ⟨mm, fl, (pc + 1) % 0x10000, sp, a, x, y⟩) := by
  constructor
  · unfold CPU.read_byte
    dsimp only
    rw [read_next_byte_eq m fl pc sp a x y z hz]
    simp only [Option.bind_eq_bind, Option.some_bind]
    rw [hlo]
    simp only [Option.some_bind]
    rw [hwrap]
    simp only [Option.some_bind]
    rfl
  · unfold CPU.write_byte
    dsimp only
    rw [read_next_byte_eq m fl pc sp a x y z hz]
    simp only [Option.bind_eq_bind, Option.some_bind]
    unfold CPU.read_double
    dsimp only
    rw [hlo]
    simp only [Option.bind_eq_bind, Option.some_bind]
    rw [show (z + 1) % 0x10000 = z + 1 from Nat.mod_eq_of_lt (by omega)]
    rw [hnowrap]
    simp only [Option.some_bind]
    rfl

set_option maxRecDepth 8000 in
theorem C8_indirect_y_witness :
    CPU.read_byte ⟨indYDemoCPU.memory, Flags.new, 0x0010, 0xFD, 0, 0, 0⟩
        .IndirectY true =
      (indYDemoCPU.memory.read ((((0x02 <<< 8) ||| 0x05) + 0) % 0x10000)).bind
        (fun v => some (v, ⟨indYDemoCPU.memory, Flags.new,
          (0x0010 + 1) % 0x10000, 0xFD, 0, 0, 0⟩)) ∧
    CPU.write_byte ⟨indYDemoCPU.memory, Flags.new, 0x0010, 0xFD, 0, 0, 0⟩
        .IndirectY 0xAB true =
      (indYDemoCPU.memory.write ((((0x03 <<< 8) ||| 0x05) + 0) % 0x10000)
          0xAB).bind
        (fun mm => some ⟨mm, Flags.new, (0x0010 + 1) % 0x10000,
          0xFD, 0, 0, 0⟩) :=
  C8_indirect_y indYDemoCPU.memory Flags.new 0x0010 0xFD 0 0 0
    0xFF 0x05 0x02 0x03 0xAB (by decide) (by decide) (by decide)
    (by decide) (by decide)


/-- C7 (confirmed): from any starting PC and SP with the two operand
bytes inside the RAM window and RAM loaded, JSR absolute pushes `P + 1`
(the address of the byte after the operand, minus one) high byte first,
low byte second, jumps to the little-endian operand address, and a
subsequent RTS pops low then high and sets PC to the popped word plus
one, i.e. `P + 2`, restoring SP. -/
theorem C7_jsr_rts (m : Memory) (fl : Flags) (P sp a x y : Nat)
    (hram : m.ram.length = RAM_SIZE) (hP : P + 1 ≤ 0x1FFF) (hsp : sp < 256) :
    ∃ lo hi m2,
      m.read P = some lo ∧ m.read (P + 1) = some hi ∧
      jsr ⟨m, fl, P, sp, a, x, y⟩ .Absolute =
        some (⟨m2, fl, (hi <<< 8) ||| lo, (sp + 254) % 256, a, x, y⟩, 6) ∧
      m2.read (sp + 0x0100) = some ((P + 1) / 256) ∧
      m2.read ((sp + 255) % 256 + 0x0100) = some ((P + 1) % 256) ∧
      rts ⟨m2, fl, (hi <<< 8) ||| lo, (sp + 254) % 256, a, x, y⟩ =
        some (⟨m2, fl, P + 2, sp, a, x, y⟩, 6) := by
  have hram' : m.ram.length = 0x0800 := hram.trans rfl
  have hidxP : P % 0x0800 < m.ram.length := by rw [hram']; omega
  have hidxP1 : (P + 1) % 0x0800 < m.ram.length := by rw [hram']; omega
  obtain ⟨lo, h1⟩ : ∃ v, m.read P = some v := by
    rw [read_ram m P (by omega)]
    exact ⟨_, List.get?_eq_get hidxP⟩
  obtain ⟨hi, h2'⟩ : ∃ v, m.read (P + 1) = some v := by
    rw [read_ram m (P + 1) (by omega)]
    exact ⟨_, List.get?_eq_get hidxP1⟩
  have h2 : m.read ((P + 1) % 0x10000) = some hi := by
    rw [Nat.mod_eq_of_lt (by omega)]
    exact h2'
  -- the two pushed stack cells
  have hw1 : m.write (sp + 0x0100) ((P + 1) / 256) =
      some { m with ram := m.ram.set (sp + 0x0100) ((P + 1) / 256) } := by
    rw [write_ram m _ _ (by omega) (by rw [hram']; omega),
        show (sp + 0x0100) % 0x0800 = sp + 0x0100 from
          Nat.mod_eq_of_lt (by omega)]
  have hw2 : ({ m with ram := m.ram.set (sp + 0x0100) ((P + 1) / 256) } :
        Memory).write ((sp + 255) % 256 + 0x0100) ((P + 1) % 256) =
      some { m with ram := ((m.ram.set (sp + 0x0100) ((P + 1) / 256)).set
               ((sp + 255) % 256 + 0x0100) ((P + 1) % 256)) } := by
    rw [write_ram _ _ _ (by omega)
          (by dsimp only; rw [List.length_set, hram']; omega),
        show ((sp + 255) % 256 + 0x0100) % 0x0800 = (sp + 255) % 256 + 0x0100
          from Nat.mod_eq_of_lt (by omega)]
  have hcell1 : ({ m with ram := ((m.ram.set (sp + 0x0100) ((P + 1) / 256)).set
        ((sp + 255) % 256 + 0x0100) ((P + 1) % 256)) } : Memory).read
        (sp + 0x0100) = some ((P + 1) / 256) := by
    rw [read_ram _ _ (by omega)]
    dsimp only
    rw [show (sp + 0x0100) % 0x0800 = sp + 0x0100 from
          Nat.mod_eq_of_lt (by omega),
        List.get?_eq_getElem?,
        List.getElem?_set_ne (show (sp + 255) % 256 + 0x0100 ≠ sp + 0x0100
          from by omega),
        List.getElem?_set_eq_of_lt _ (by rw [hram']; omega)]
  have hcell2 : ({ m with ram := ((m.ram.set (sp + 0x0100) ((P + 1) / 256)).set
        ((sp + 255) % 256 + 0x0100) ((P + 1) % 256)) } : Memory).read
        ((sp + 255) % 256 + 0x0100) = some ((P + 1) % 256) := by
    rw [read_ram _ _ (by omega)]
    dsimp only
    rw [show ((sp + 255) % 256 + 0x0100) % 0x0800 = (sp + 255) % 256 + 0x0100
          from Nat.mod_eq_of_lt (by omega),
        List.get?_eq_getElem?,
        List.getElem?_set_eq_of_lt _ (by rw [List.length_set, hram']; omega)]
  refine ⟨lo, hi,
    { m with ram := ((m.ram.set (sp + 0x0100) ((P + 1) / 256)).set
        ((sp + 255) % 256 + 0x0100) ((P + 1) % 256)) },
    h1, h2', ?_, hcell1, hcell2, ?_⟩
  · unfold jsr
    dsimp only
    rw [read_next_double_eq m fl P sp a x y lo hi h1 h2]
    simp only [Option.bind_eq_bind, Option.some_bind]
    rw [show ((P + 2) % 0x10000 + 0xFFFF) % 0x10000 = P + 1 from by omega,
        show ((P + 1) >>> 8) % 256 = (P + 1) / 256 from by
          rw [Nat.shiftRight_eq_div_pow]
          norm_num
          omega,
        push_stack_eq m fl ((P + 2) % 0x10000) sp a x y ((P + 1) / 256) _ hw1]
    simp only [Option.bind_eq_bind, Option.some_bind]
    rw [push_stack_eq _ fl ((P + 2) % 0x10000) ((sp + 255) % 256) a x y
          ((P + 1) % 256) _ hw2]
    simp only [Option.some_bind]
    rw [show ((sp + 255) % 256 + 255) % 256 = (sp + 254) % 256 from by omega]
    rfl
  · unfold rts
    rw [pop_stack_eq _ fl ((hi <<< 8) ||| lo) ((sp + 254) % 256) a x y
          ((P + 1) % 256)
          (by rw [show ((sp + 254) % 256 + 1) % 256 = (sp + 255) % 256 from
                by omega]
              exact hcell2)]
    simp only [Option.bind_eq_bind, Option.some_bind]
    rw [show ((sp + 254) % 256 + 1) % 256 = (sp + 255) % 256 from by omega]
    rw [pop_stack_eq _ fl ((hi <<< 8) ||| lo) ((sp + 255) % 256) a x y
          ((P + 1) / 256)
          (by rw [show ((sp + 255) % 256 + 1) % 256 = sp from by omega]
              exact hcell1)]
    simp only [Option.some_bind]
    rw [byte_lor_eq ((P + 1) / 256) ((P + 1) % 256) (by omega),
        show (256 * ((P + 1) / 256) + (P + 1) % 256 + 1) % 0x10000 = P + 2
          from by omega,
        show ((sp + 255) % 256 + 1) % 256 = sp from by omega]
    rfl

theorem C7_jsr_rts_witness :
    ∃ lo hi m2,
      jsrDemoCPU.memory.read 0x10 = some lo ∧
      jsrDemoCPU.memory.read (0x10 + 1) = some hi ∧
      jsr ⟨jsrDemoCPU.memory, Flags.new, 0x10, 0xFD, 0, 0, 0⟩ .Absolute =
        some (⟨m2, Flags.new, (hi <<< 8) ||| lo, (0xFD + 254) % 256,
               0, 0, 0⟩, 6) ∧
      m2.read (0xFD + 0x0100) = some ((0x10 + 1) / 256) ∧
      m2.read ((0xFD + 255) % 256 + 0x0100) = some ((0x10 + 1) % 256) ∧
      rts ⟨m2, Flags.new, (hi <<< 8) ||| lo, (0xFD + 254) % 256, 0, 0, 0⟩ =
        some (⟨m2, Flags.new, 0x10 + 2, 0xFD, 0, 0, 0⟩, 6) :=
  C7_jsr_rts jsrDemoCPU.memory Flags.new 0x10 0xFD 0 0 0
    (show (((List.replicate RAM_SIZE 0x00).set 0x10 0x34).set
        0x11 0x12).length = RAM_SIZE from by
      simp)
    (by norm_num) (by norm_num)

end Corrosiones
